import Mathlib

/-!
Verification development for a Jenkins console-log report generator
(`jenkins_log_parser/main.py`).  The Python source is shallowly embedded:
strings are `List Char`, regular-expression searches are translated into
explicit scanning functions that realise the exact backtracking behaviour of
the patterns used by the source, HTTP fetches become fields of a
`JenkinsSource` record, and the `datetime.fromtimestamp` local-date
conversion is embedded as the proleptic-Gregorian conversion with an
explicit fixed timezone offset carried by the source record.
-/

/-- Strings are modelled as lists of characters. -/
abbrev Str := List Char

/-- ASCII digit, the `\d` class of the source's patterns (logs are ASCII). -/
def isDigitC (c : Char) : Bool := '0' ≤ c && c ≤ '9'

/-- ASCII word character, the `\w` / `[A-Za-z0-9_]` classes. -/
def isWordC (c : Char) : Bool :=
  isDigitC c || ('a' ≤ c && c ≤ 'z') || ('A' ≤ c && c ≤ 'Z') || c = '_'

/-- ASCII whitespace, the `\s` class and Python `str.strip` characters. -/
def isSpaceC (c : Char) : Bool :=
  c = ' ' || c = '\t' || c = '\n' || c = '\r' || c = '\x0b' || c = '\x0c'

/-- ASCII lower-casing, Python `str.lower` on log text. -/
def toLowerC (c : Char) : Char :=
  if 'A' ≤ c && c ≤ 'Z' then Char.ofNat (c.toNat + 32) else c

/-- Lower-case a whole string. -/
def toLowerStr (s : Str) : Str := s.map toLowerC

/-- Python `str.strip`: drop whitespace from both ends. -/
def stripStr (s : Str) : Str :=
  ((s.dropWhile isSpaceC).reverse.dropWhile isSpaceC).reverse

/-- Drop trailing whitespace only. -/
def rstripStr (s : Str) : Str := (s.reverse.dropWhile isSpaceC).reverse

/-- Numeric value of a run of decimal digits (`int(...)` on a `\d+` match). -/
def digitsToNat (s : Str) : Nat := s.foldl (fun a c => a * 10 + (c.toNat - 48)) 0

/-- Case-insensitive prefix test: `pat` is given lower-cased and is compared
against the lower-casing of `s`. -/
def ciPrefixOf : Str → Str → Bool
  | [], _ => true
  | _ :: _, [] => false
  | p :: ps, c :: cs => (toLowerC c = p) && ciPrefixOf ps cs

/-- Does `needle` occur as a contiguous substring of `hay`? -/
def containsSub (hay needle : Str) : Bool :=
  if needle.isPrefixOf hay then true else
  match hay with
  | [] => false
  | _ :: t => containsSub t needle

/-- Suffix of `hay` that follows the first occurrence of `needle`
(`re.search` on a literal), or `none` when `needle` does not occur. -/
def afterSub (hay needle : Str) : Option Str :=
  if needle.isPrefixOf hay then some (hay.drop needle.length) else
  match hay with
  | [] => none
  | _ :: t => afterSub t needle

/-! ## Line Counter: `JenkinsLogParser.parse_counts_from_line` -/

/-- Result record of the Line Counter (the Python dict
`{"total", "failed", "passed", "skipped"}`). -/
structure Counts where
  total : Nat
  passed : Nat
  failed : Nat
  skipped : Nat
deriving Repr, DecidableEq

def zeroCounts : Counts := ⟨0, 0, 0, 0⟩

/-- `re.search(r"\((.*?)\)", line)`: the content of the first `(` that is
closed by a `)` with no intervening newline (`.` does not cross lines);
the engine retries later `(` positions when a candidate fails. -/
def parenGroup : Str → Option Str
  | [] => none
  | '(' :: t =>
    let pre := t.takeWhile (fun c => c ≠ ')' && c ≠ '\n')
    match t.drop pre.length with
    | ')' :: _ => some pre
    | _ => parenGroup t
  | _ :: t => parenGroup t

/-- `re.findall(r"(\d+) (\w+)", s)`: non-overlapping scan for a maximal digit
run, one space, and a maximal word run.  Shrinking a greedy `\d+`/`\w+` run
can never rescue a failed match (the follow-up characters are disjoint from
the classes), so the scan may skip a failed digit run wholesale.  `fuel`
bounds the recursion; each step consumes at least one character, so any
`fuel ≥ s.length` computes the full scan. -/
def findPairs : Nat → Str → List (Nat × Str)
  | 0, _ => []
  | fuel + 1, s =>
    match s with
    | [] => []
    | c :: t =>
      if isDigitC c then
        let ds := s.takeWhile isDigitC
        match s.drop ds.length with
        | ' ' :: r =>
          let ws := r.takeWhile isWordC
          if ws = [] then findPairs fuel (s.drop ds.length)
          else (digitsToNat ds, ws) :: findPairs fuel (r.drop ws.length)
        | rest => findPairs fuel rest
      else findPairs fuel t

/-- The `(integer, word)` pairs of a line's parenthesized group; `[]` when the
group is absent (the source then skips the `findall` loop). -/
def linePairs (line : Str) : List (Nat × Str) :=
  match parenGroup line with
  | some g => findPairs g.length g
  | none => []

/-- One step of the source's sequential-overwrite loop over label pairs
(`label = label.lower()` then the `if/elif` chain); state is
`(failed, passed, skipped)`. -/
def applyPair (acc : Nat × Nat × Nat) (p : Nat × Str) : Nat × Nat × Nat :=
  if toLowerStr p.2 = "failed".toList then (p.1, acc.2.1, acc.2.2)
  else if toLowerStr p.2 = "passed".toList then (acc.1, p.1, acc.2.2)
  else if toLowerStr p.2 = "skipped".toList then (acc.1, acc.2.1, p.1)
  else acc

/-- `JenkinsLogParser.parse_counts_from_line`: leading integer is `total`
(0 if absent), then the pairs of the first parenthesized group overwrite the
`failed`/`passed`/`skipped` slots in sequence. -/
def parse_counts_from_line (line : Str) : Counts :=
  let total := digitsToNat (line.takeWhile isDigitC)
  let fps := (linePairs line).foldl applyPair (0, 0, 0)
  ⟨total, fps.2.1, fps.1, fps.2.2⟩

/-- Spec-side reading of the Line Counter's label rule: the value of the last
pair whose word matches the label case-insensitively, 0 when there is none. -/
def lastD : List Nat → Nat → Nat
  | [], d => d
  | x :: xs, _ => lastD xs x

/-- The pairs whose lower-cased word equals `lab`. -/
def filterLab (lab : Str) : List (Nat × Str) → List (Nat × Str)
  | [] => []
  | q :: rest =>
    if toLowerStr q.2 = lab then q :: filterLab lab rest else filterLab lab rest

/-- The count the specification assigns to `lab`: last matching pair wins. -/
def specLabelCount (lab : Str) (line : Str) : Nat :=
  lastD ((filterLab lab (linePairs line)).map (fun q => q.1)) 0

/-! ## Failure Extractor: `JenkinsLogParser.extract_failures` -/

/-- Does the duration stamp `\d+m\d+\.\d+s \(executing steps: ` match at the
head of `s`?  Each greedy `\d+` is a maximal digit run; shrinking one can
never help since the following literal is never a digit. -/
def durationStartsAt (s : Str) : Bool :=
  let d1 := s.takeWhile isDigitC
  if d1 = [] then false else
  match s.drop d1.length with
  | 'm' :: r1 =>
    let d2 := r1.takeWhile isDigitC
    if d2 = [] then false else
    match r1.drop d2.length with
    | '.' :: r2 =>
      let d3 := r2.takeWhile isDigitC
      if d3 = [] then false else
      match r2.drop d3.length with
      | 's' :: ' ' :: r3 => "(executing steps: ".toList.isPrefixOf r3
      | _ => false
    | _ => false
  | _ => false

/-- `(.*?)(?=duration)` with `re.DOTALL`: the prefix of `s` before the
earliest position at which the duration stamp starts, or `none` when no such
position exists (the regex then fails and the source returns `[]`). -/
def takeUntilDuration : Str → Option Str
  | [] => if durationStartsAt [] then some [] else none
  | c :: t =>
    if durationStartsAt (c :: t) then some []
    else (takeUntilDuration t).map (fun r => c :: r)

/-- The lazy capture of `Scenario: (.*?)\s*#`: the shortest newline-free
prefix that is followed by a whitespace run (which may cross lines) and `#`.
Returns the capture and the number of characters consumed up to and
including the `#`. -/
def wsHashLen (s : Str) : Option Nat :=
  let w := s.takeWhile isSpaceC
  if (s.drop w.length).head? = some '#' then some (w.length + 1) else none

def lazyCapture : Str → Option (Str × Nat)
  | [] => none
  | c :: t =>
    match wsHashLen (c :: t) with
    | some j => some ([], j)
    | none =>
      if c = '\n' then none
      else (lazyCapture t).map (fun p => (c :: p.1, p.2 + 1))

/-- `re.findall(r"Scenario: (.*?)\s*#", region)`: scan for the literal
`"Scenario: "`; on a successful capture resume after the consumed `#`,
on a failed one resume one character later.  Any `fuel ≥ s.length` computes
the full scan. -/
def scanScenarios : Nat → Str → List Str
  | 0, _ => []
  | fuel + 1, s =>
    if "Scenario: ".toList.isPrefixOf s then
      let rest := s.drop 10
      match lazyCapture rest with
      | some (cap, used) => cap :: scanScenarios fuel (rest.drop used)
      | none =>
        match s with
        | [] => []
        | _ :: t => scanScenarios fuel t
    else
      match s with
      | [] => []
      | _ :: t => scanScenarios fuel t

/-- `JenkinsLogParser.extract_failures`: bound the region between the first
`"Failures:"` and the next duration stamp, then collect scenario names. -/
def extract_failures (console : Str) : List Str :=
  match afterSub console "Failures:".toList with
  | none => []
  | some s =>
    match takeUntilDuration s with
    | none => []
    | some region => scanScenarios region.length region

/-! ## Summary Extractor: `JenkinsLogParser.extract_summary_counts` -/

/-- `\d{4}-\d{2}-\d{2}` at the head of `s`. -/
def dateDigitsOk (s : Str) : Bool :=
  match s with
  | a :: b :: c :: d :: '-' :: e :: f :: '-' :: g :: h :: _ =>
    isDigitC a && isDigitC b && isDigitC c && isDigitC d &&
    isDigitC e && isDigitC f && isDigitC g && isDigitC h
  | _ => false

/-- `\d{2}:\d{2}:\d{2}` at the head of `s`. -/
def timeDigitsOk (s : Str) : Bool :=
  match s with
  | a :: b :: ':' :: c :: d :: ':' :: e :: f :: _ =>
    isDigitC a && isDigitC b && isDigitC c && isDigitC d && isDigitC e && isDigitC f
  | _ => false

/-- Group 3 of the summary pattern, `\d+ \w+ \(.*\)`: a maximal digit run, a
space, a maximal word run, a space, `(`, then greedily the rest of the line
up to its last `)`.  Returns the matched text and its length. -/
def lastParenPre : Str → Option Str
  | [] => none
  | c :: t =>
    match lastParenPre t with
    | some r => some (c :: r)
    | none => if c = ')' then some [c] else none

def group3Match (v : Str) : Option (Str × Nat) :=
  let ds := v.takeWhile isDigitC
  if ds = [] then none else
  match v.drop ds.length with
  | ' ' :: v2 =>
    let ws := v2.takeWhile isWordC
    if ws = [] then none else
    match v2.drop ws.length with
    | ' ' :: '(' :: v3 =>
      let line := v3.takeWhile (fun c => c ≠ '\n')
      match lastParenPre line with
      | some inner =>
        let g := ds ++ [' '] ++ ws ++ [' ', '('] ++ inner
        some (g, g.length)
      | none => none
    | _ => none
  | _ => none

/-- `\s+` then group 3.  The whitespace run is maximal (it may cross lines);
shrinking it can never help since a digit is not whitespace. -/
def wsGroup3 (u : Str) : Option (Str × Nat) :=
  let w := u.takeWhile isSpaceC
  if w = [] then none else
  (group3Match (u.drop w.length)).map (fun p => (p.1, w.length + p.2))

/-- The bracketed-timestamp alternative after the opening `[` and the ten
date characters: the lazy `(\d{4}-\d{2}-\d{2}.*?)Z\]` expands (never across a
newline) to successive `Z]` occurrences until `\s+`-and-group-3 succeeds. -/
def zScan : Str → Option (Str × Nat)
  | [] => none
  | u@(c :: t) =>
    if "Z]".toList.isPrefixOf u then
      match wsGroup3 (u.drop 2) with
      | some (g3, m) => some (g3, 2 + m)
      | none =>
        if c = '\n' then none
        else (zScan t).map (fun p => (p.1, p.2 + 1))
    else
      if c = '\n' then none
      else (zScan t).map (fun p => (p.1, p.2 + 1))

/-- One attempt of the summary pattern at a line start: the `[date...Z]`
alternative, else the bare `HH:MM:SS` alternative (their first characters
are disjoint, so the order cannot matter).  Returns group 3 and the total
length of the match. -/
def matchSummary (s : Str) : Option (Str × Nat) :=
  match s with
  | '[' :: r =>
    if dateDigitsOk r then (zScan (r.drop 10)).map (fun p => (p.1, 1 + 10 + p.2))
    else none
  | _ =>
    if timeDigitsOk s then (wsGroup3 (s.drop 8)).map (fun p => (p.1, 8 + p.2))
    else none

/-- `re.findall` with `re.MULTILINE` over
`^(?:\[(\d{4}-...)Z\]|\b(\d{2}:\d{2}:\d{2}))\s+(\d+ \w+ \(.*\))`:
attempt the pattern at every line start, resume after a match (its last
character is `)`, hence not at a line start).  Collects the group-3 texts in
document order.  Any `fuel ≥ s.length` computes the full scan. -/
def smScan : Nat → Bool → Str → List Str
  | 0, _, _ => []
  | fuel + 1, atStart, s =>
    match (if atStart then matchSummary s else none) with
    | some (g3, used) => g3 :: smScan fuel false (s.drop used)
    | none =>
      match s with
      | [] => []
      | ch :: t => smScan fuel (ch = '\n') t

def summaryMatches (console : Str) : List Str := smScan console.length true console

/-- `JenkinsLogParser.extract_summary_counts`: with at least two matches the
first is the scenario summary and the second the step summary; otherwise the
empty dict, modelled as `none`. -/
def extract_summary_counts (console : Str) : Option (Counts × Counts) :=
  match summaryMatches console with
  | m0 :: m1 :: _ => some (parse_counts_from_line m0, parse_counts_from_line m1)
  | _ => none

/-! ## Environment Classifier: `JenkinsLogParser.extract_env` -/

/-- The brace block of pattern 1: `[^}]*ENV=([^,}]+)` after the opening
brace.  The greedy `[^}]*` backtracks from the right, so the rightmost
`ENV=` (case-insensitive) before the first `\x7d` whose capture
`[^,}]+` is non-empty wins; `none` when no position qualifies. -/
def braceEnvFind : Str → Option Str
  | [] => none
  | c :: t =>
    if c = '\x7d' then none
    else
      match braceEnvFind t with
      | some v => some v
      | none =>
        if ciPrefixOf "env=".toList (c :: t) then
          let cap := ((c :: t).drop 4).takeWhile (fun ch => ch ≠ ',' && ch ≠ '\x7d')
          if cap = [] then none else some cap
        else none

/-- The literal head of pattern 1 (stored lower-cased for the
case-insensitive comparison). -/
def timerLit : Str := "started by timer with parameters: ".toList ++ ['\x7b']

/-- Pattern 1, `Started by timer with parameters: \{[^}]*ENV=([^,}]+)` with
`re.IGNORECASE`: at each occurrence of the literal try the brace block; on
failure the engine advances to the next occurrence. -/
def tryPat1 : Str → Option Str
  | [] => none
  | c :: t =>
    match (if ciPrefixOf timerLit (c :: t) then braceEnvFind ((c :: t).drop timerLit.length) else none) with
    | some v => some v
    | none => tryPat1 t

/-- Pattern 2, `ENV=([A-Za-z0-9_]+)` with `re.IGNORECASE`: the first
occurrence of `ENV=` followed by at least one word character. -/
def tryPat2 : Str → Option Str
  | [] => none
  | c :: t =>
    match (if ciPrefixOf "env=".toList (c :: t) then
             let w := ((c :: t).drop 4).takeWhile isWordC
             if w = [] then none else some w
           else none) with
    | some v => some v
    | none => tryPat2 t

/-- Pattern 3, `Environment[:=]\s*([A-Za-z0-9_]+)` with `re.IGNORECASE`. -/
def envLineAt (s : Str) : Option Str :=
  if ciPrefixOf "environment".toList s then
    match s.drop 11 with
    | ':' :: r => let w := (r.dropWhile isSpaceC).takeWhile isWordC
                  if w = [] then none else some w
    | '=' :: r => let w := (r.dropWhile isSpaceC).takeWhile isWordC
                  if w = [] then none else some w
    | _ => none
  else none

def tryPat3 : Str → Option Str
  | [] => none
  | c :: t =>
    match envLineAt (c :: t) with
    | some v => some v
    | none => tryPat3 t

/-- Pattern 4, `Run environment:\s*([A-Za-z0-9_]+)` with `re.IGNORECASE`. -/
def runEnvAt (s : Str) : Option Str :=
  if ciPrefixOf "run environment:".toList s then
    let w := ((s.drop 16).dropWhile isSpaceC).takeWhile isWordC
    if w = [] then none else some w
  else none

def tryPat4 : Str → Option Str
  | [] => none
  | c :: t =>
    match runEnvAt (c :: t) with
    | some v => some v
    | none => tryPat4 t

/-- The source's ordered pattern list. -/
def envPatterns : List (Str → Option Str) := [tryPat1, tryPat2, tryPat3, tryPat4]

/-- The source's `for pat in patterns` loop: first matching pattern wins. -/
def firstEnvMatch : List (Str → Option Str) → Str → Option Str
  | [], _ => none
  | p :: ps, out =>
    match p out with
    | some v => some v
    | none => firstEnvMatch ps out

/-- `JenkinsLogParser.extract_env`: the first match's capture, stripped and
lower-cased, defaulting to `"unknown"`. -/
def extract_env (output : Str) : Str :=
  match firstEnvMatch envPatterns output with
  | some v => toLowerStr (stripStr v)
  | none => "unknown".toList

/-- Spec-side cascade reading of the classifier: try pattern 1, else 2,
else 3, else 4, else `"unknown"`. -/
def specEnvCascade (output : Str) : Str :=
  match tryPat1 output with
  | some v => toLowerStr (stripStr v)
  | none =>
    match tryPat2 output with
    | some v => toLowerStr (stripStr v)
    | none =>
      match tryPat3 output with
      | some v => toLowerStr (stripStr v)
      | none =>
        match tryPat4 output with
        | some v => toLowerStr (stripStr v)
        | none => "unknown".toList

/-! ## Build Aggregator: `JenkinsLogParser.aggregate_last_n_builds_by_date_and_env` -/

/-- One aggregate bucket: the value of `data[date][env]` in the source. -/
structure Bucket where
  builds : List Int
  scenarios : Counts
  steps : Counts
  failed_scenarios : List Str
deriving Repr, DecidableEq

/-- The defaultdict's freshly created bucket. -/
def emptyBucket : Bucket := ⟨[], zeroCounts, zeroCounts, []⟩

/-- Pointwise sum, the source's `entry[key][typ] += ...` loop unrolled. -/
def addCounts (a b : Counts) : Counts :=
  ⟨a.total + b.total, a.passed + b.passed, a.failed + b.failed, a.skipped + b.skipped⟩

/-- A bucket key: `(date string, environment label)`. -/
abbrev BKey := Str × Str

/-- The nested `date → env → bucket` dict, flattened to an association list
keyed by `(date, env)`; entries keep first-insertion order exactly as
Python dicts do. -/
abbrev AggMap := List (BKey × Bucket)

def lookupKey : AggMap → BKey → Option Bucket
  | [], _ => none
  | (k, b) :: rest, key => if key = k then some b else lookupKey rest key

/-- Replace the value at `key`, or append a new entry at the end (Python dict
insertion order). -/
def updateKey : AggMap → BKey → Bucket → AggMap
  | [], key, v => [(key, v)]
  | (k, b) :: rest, key, v =>
    if key = k then (k, v) :: rest else (k, b) :: updateKey rest key v

/-- The external world the aggregator reads: the Jenkins HTTP API
(`lastBuild` metadata, per-build metadata and console text — a failed fetch
is `none`) together with the host clock's fixed UTC offset in seconds, used
by `datetime.fromtimestamp` to form the local calendar date. -/
structure JenkinsSource where
  lastBuildNumber : Option Int
  buildTimestamp : Int → Option Int
  consoleText : Int → Option Str
  tzOffset : Int

/-- Days-to-civil-date conversion of the proleptic Gregorian calendar
(the computation performed by `datetime.fromtimestamp(...).strftime`). -/
def civilFromDays (z0 : Int) : Int × Nat × Nat :=
  let z := z0 + 719468
  let era := Int.fdiv z 146097
  let doe := (z - era * 146097).toNat
  let yoe := (doe - doe / 1460 + doe / 36524 - doe / 146096) / 365
  let y := (yoe : Int) + era * 400
  let doy := doe - (365 * yoe + yoe / 4 - yoe / 100)
  let mp := (5 * doy + 2) / 153
  let d := doy - (153 * mp + 2) / 5 + 1
  let m := if mp < 10 then mp + 3 else mp - 9
  (if m ≤ 2 then y + 1 else y, m, d)

/-- Decimal digits of a natural number. -/
def natToStr (n : Nat) : Str := Nat.toDigits 10 n

/-- Zero-pad to width 2 (`%m`, `%d`). -/
def pad2 (n : Nat) : Str := if n < 10 then '0' :: natToStr n else natToStr n

/-- Zero-pad to width 4 (`%Y`). -/
def pad4 (i : Int) : Str :=
  if i < 0 then '-' :: natToStr i.natAbs
  else
    let s := natToStr i.toNat
    List.replicate (4 - s.length) '0' ++ s

/-- `datetime.fromtimestamp(ts // 1000).strftime('%Y-%m-%d')`: floor-divide
the millisecond timestamp to seconds, shift by the local offset, floor to
days, and format the civil date. -/
def local_date_str (tz : Int) (tsMillis : Int) : Str :=
  let secs := Int.fdiv tsMillis 1000
  let days := Int.fdiv (secs + tz) 86400
  let ymd := civilFromDays days
  pad4 ymd.1 ++ ['-'] ++ pad2 ymd.2.1 ++ ['-'] ++ pad2 ymd.2.2

/-- The caller-level normalization: anything but exactly `prod`/`preprod`
becomes `ran_manually`. -/
def normalizeEnv (e : Str) : Str :=
  if e = "prod".toList ∨ e = "preprod".toList then e else "ran_manually".toList

/-- Per-build scenario counters (`counts.get("scenarios", {})`, zero when the
summary is missing or the console was never fetched). -/
def perBuildScen (src : JenkinsSource) (i : Int) : Counts :=
  match src.consoleText i with
  | some c => ((extract_summary_counts c).getD (zeroCounts, zeroCounts)).1
  | none => zeroCounts

/-- Per-build step counters. -/
def perBuildSteps (src : JenkinsSource) (i : Int) : Counts :=
  match src.consoleText i with
  | some c => ((extract_summary_counts c).getD (zeroCounts, zeroCounts)).2
  | none => zeroCounts

/-- Per-build failed scenario names. -/
def perBuildFails (src : JenkinsSource) (i : Int) : List Str :=
  match src.consoleText i with
  | some c => extract_failures c
  | none => []

/-- The bucket key a fetchable build lands in (junk components where a fetch
fails; only used on fetchable builds). -/
def buildKey (src : JenkinsSource) (i : Int) : BKey :=
  (match src.buildTimestamp i with
   | some ts => local_date_str src.tzOffset ts
   | none => [],
   match src.consoleText i with
   | some c => normalizeEnv (extract_env c)
   | none => [])

/-- Did both fetches of the loop body succeed for build `i`? -/
def isFetched (src : JenkinsSource) (i : Int) : Bool :=
  (src.buildTimestamp i).isSome && (src.consoleText i).isSome

/-- The body of the aggregation loop for one build number. -/
def processBuild (src : JenkinsSource) (acc : AggMap) (i : Int) : AggMap :=
  match src.buildTimestamp i with
  | none => acc
  | some ts =>
    let date_str := local_date_str src.tzOffset ts
    match src.consoleText i with
    | none => acc
    | some console =>
      let env := normalizeEnv (extract_env console)
      let counts := (extract_summary_counts console).getD (zeroCounts, zeroCounts)
      let fails := extract_failures console
      let entry := (lookupKey acc (date_str, env)).getD emptyBucket
      updateKey acc (date_str, env)
        { builds := entry.builds ++ [i]
          scenarios := addCounts entry.scenarios counts.1
          steps := addCounts entry.steps counts.2
          failed_scenarios := entry.failed_scenarios ++ fails }

/-- `range(latest, latest - n, -1)`: the `n` consecutive build numbers
descending from `latest` inclusive. -/
def descRange (latest : Int) (n : Nat) : List Int :=
  (List.range n).map (fun j => latest - (j : Int))

/-- `JenkinsLogParser.aggregate_last_n_builds_by_date_and_env`: empty result
when the `lastBuild` metadata fetch fails, otherwise the fold of the loop
body over the descending window. -/
def aggregate_last_n_builds (src : JenkinsSource) (n : Nat) : AggMap :=
  match src.lastBuildNumber with
  | none => []
  | some latest => (descRange latest n).foldl (processBuild src) []

/-- The builds of the window whose two fetches both succeed, in iteration
order. -/
def fetchedBuilds (src : JenkinsSource) (n : Nat) : List Int :=
  match src.lastBuildNumber with
  | none => []
  | some latest => (descRange latest n).filter (isFetched src)

/-! ## Reporting layer: the `__main__` row construction -/

/-- Code-point lexicographic order on strings — Python `<` on `str`. -/
def strLtB : Str → Str → Bool
  | [], [] => false
  | [], _ :: _ => true
  | _ :: _, [] => false
  | a :: s, b :: t =>
    if a.toNat < b.toNat then true
    else if b.toNat < a.toNat then false
    else strLtB s t

/-- Non-strict counterpart used for sorting scenario names. -/
def strLeB (a b : Str) : Bool := !strLtB b a

/-- `sorted(results.keys(), reverse=True)[0]`: the lexicographically greatest
date present in the aggregate (junk on an empty aggregate, which the source
never reaches: it exits first). -/
def maxDateKey (m : AggMap) : Str :=
  match m.map (fun p => p.1.1) with
  | [] => []
  | d :: ds => ds.foldl (fun a b => if strLtB a b then b else a) d

/-- `str(i)` for a Python int. -/
def intToStr (i : Int) : Str :=
  if i < 0 then '-' :: natToStr i.natAbs else natToStr i.toNat

/-- Floor of a rational, computably. -/
def qfloor (x : ℚ) : ℤ := Int.fdiv x.num x.den

/-- Python 3 `round(x, 2)` idealized over exact rationals: scale by 100 and
round half-to-even.  (CPython rounds the binary-float image of `x`; on exact
rationals this is the stated bankers rounding.) -/
def roundHalfEven (x : ℚ) : ℤ :=
  let n := qfloor x
  let r := x - (n : ℚ)
  if r < 1/2 then n else if (1/2 : ℚ) < r then n + 1 else if n % 2 = 0 then n else n + 1

def pyRound2 (x : ℚ) : ℚ := (roundHalfEven (x * 100) : ℚ) / 100

/-- One output row of the report (CSV/HTML/Excel/email all consume it). -/
structure ReportRow where
  date : Str
  builds : Str
  environment : Str
  stability : ℚ
  failure_percentage : ℚ
  scenarios_total : Nat
  scenarios_passed : Nat
  scenarios_failed : Nat
  scenarios_skipped : Nat
  steps_total : Nat
  steps_passed : Nat
  steps_failed : Nat
  steps_skipped : Nat
  failed_scenarios : Str
deriving Repr, DecidableEq

/-- The row built from one `(env, data)` entry of `results[latest_date]`. -/
def makeRow (latest : Str) (e : Str) (b : Bucket) : ReportRow :=
  let total := b.scenarios.total
  let stability : ℚ := if 0 < total then (b.scenarios.passed : ℚ) / (total : ℚ) * 100 else 0
  let failure_pct : ℚ := if 0 < total then (b.scenarios.failed : ℚ) / (total : ℚ) * 100 else 0
  { date := latest
    builds := List.intercalate ", ".toList ((List.insertionSort (· ≤ ·) b.builds).map intToStr)
    environment := e
    stability := pyRound2 stability
    failure_percentage := pyRound2 failure_pct
    scenarios_total := total
    scenarios_passed := b.scenarios.passed
    scenarios_failed := b.scenarios.failed
    scenarios_skipped := b.scenarios.skipped
    steps_total := b.steps.total
    steps_passed := b.steps.passed
    steps_failed := b.steps.failed
    steps_skipped := b.steps.skipped
    failed_scenarios :=
      List.intercalate "; ".toList
        (List.insertionSort (fun a b => strLeB a b = true) b.failed_scenarios.dedup) }

/-- The `__main__` row loop: only the buckets of the latest date produce
rows, in their insertion order. -/
def buildReportRows (m : AggMap) : List ReportRow :=
  let ld := maxDateKey m
  (m.filter (fun p => decide (p.1.1 = ld))).map (fun p => makeRow ld p.1.2 p.2)

/-! # Helper lemmas -/
/-! # Helper lemmas -/

theorem lastD_cons (x : Nat) (xs : List Nat) (d : Nat) : lastD (x :: xs) d = lastD xs x := rfl

theorem filterLab_cons (lab : Str) (q : Nat × Str) (rest : List (Nat × Str)) :
    filterLab lab (q :: rest) =
      if toLowerStr q.2 = lab then q :: filterLab lab rest else filterLab lab rest := rfl

/-- The sequential-overwrite fold realises "last matching pair wins" for each
of the three labels. -/
theorem foldl_applyPair (ps : List (Nat × Str)) : ∀ f p s : Nat,
    ps.foldl applyPair (f, p, s) =
      (lastD ((filterLab "failed".toList ps).map (fun q => q.1)) f,
       lastD ((filterLab "passed".toList ps).map (fun q => q.1)) p,
       lastD ((filterLab "skipped".toList ps).map (fun q => q.1)) s) := by
  induction ps with
  | nil => intro f p s; rfl
  | cons q rest ih =>
    intro f p s
    rw [List.foldl_cons]
    by_cases hf : toLowerStr q.2 = "failed".toList
    · rw [show applyPair (f, p, s) q = (q.1, p, s) from by
          unfold applyPair; rw [if_pos hf], ih,
        filterLab_cons, filterLab_cons, filterLab_cons, if_pos hf,
        if_neg (by rw [hf]; decide), if_neg (by rw [hf]; decide)]
      rfl
    · by_cases hp : toLowerStr q.2 = "passed".toList
      · rw [show applyPair (f, p, s) q = (f, q.1, s) from by
            unfold applyPair; rw [if_neg hf, if_pos hp], ih,
          filterLab_cons, filterLab_cons, filterLab_cons, if_neg hf, if_pos hp,
          if_neg (by rw [hp]; decide)]
        rfl
      · by_cases hs : toLowerStr q.2 = "skipped".toList
        · rw [show applyPair (f, p, s) q = (f, p, q.1) from by
              unfold applyPair; rw [if_neg hf, if_neg hp, if_pos hs], ih,
            filterLab_cons, filterLab_cons, filterLab_cons, if_neg hf, if_neg hp,
            if_pos hs]
          rfl
        · rw [show applyPair (f, p, s) q = (f, p, s) from by
              unfold applyPair; rw [if_neg hf, if_neg hp, if_neg hs], ih,
            filterLab_cons, filterLab_cons, filterLab_cons, if_neg hf, if_neg hp,
            if_neg hs]

/-! # Claim theorems -/

/-- **C3.** For every input line the Line Counter returns `total` equal to
the leading integer of the line (0 if absent) and returns `failed`, `passed`,
`skipped` equal to the integer of the last pair of the parenthesized group
whose word case-insensitively equals the label (0 if no such pair), other
labels being ignored; on `"42 scenarios (5 failed, 30 passed, 7 skipped)"`
it yields total 42, failed 5, passed 30, skipped 7.  It is a total function,
so no input can raise. -/
theorem parse_counts_spec :
    (∀ line : Str,
      parse_counts_from_line line =
        { total := digitsToNat (line.takeWhile isDigitC)
          passed := specLabelCount "passed".toList line
          failed := specLabelCount "failed".toList line
          skipped := specLabelCount "skipped".toList line })
    ∧ parse_counts_from_line "42 scenarios (5 failed, 30 passed, 7 skipped)".toList =
        { total := 42, passed := 30, failed := 5, skipped := 7 } := by
  constructor
  · intro line
    simp only [parse_counts_from_line, specLabelCount]
    rw [foldl_applyPair]
  · decide

/-- **C4.** The Summary Extractor collects the summary-grammar matches in
document order; with at least two matches the first is parsed as the
scenario summary and the second as the step summary, with fewer than two it
returns the empty result (and, being total, never raises). -/
theorem extract_summary_spec :
    (∀ c : Str, (summaryMatches c).length < 2 → extract_summary_counts c = none)
    ∧ (∀ c m0 m1 rest, summaryMatches c = m0 :: m1 :: rest →
        extract_summary_counts c = some (parse_counts_from_line m0, parse_counts_from_line m1)) := by
  constructor
  · intro c h
    rcases hm : summaryMatches c with _ | ⟨m0, _ | ⟨m1, rest⟩⟩
    · simp [extract_summary_counts, hm]
    · simp [extract_summary_counts, hm]
    · rw [hm] at h; simp at h; omega
  · intro c m0 m1 rest h
    simp [extract_summary_counts, h]

def consoleW4 : Str :=
  "12:00:00 2 scenarios (1 passed, 1 failed)\n12:00:01 5 steps (5 passed)\n".toList

/-- Witness for C4 at a concrete two-summary console. -/
theorem extract_summary_spec_witness :
    summaryMatches consoleW4 =
      ["2 scenarios (1 passed, 1 failed)".toList, "5 steps (5 passed)".toList]
    ∧ extract_summary_counts consoleW4 =
        some (parse_counts_from_line "2 scenarios (1 passed, 1 failed)".toList,
              parse_counts_from_line "5 steps (5 passed)".toList) :=
  ⟨by decide, extract_summary_spec.2 _ _ _ [] (by decide)⟩

/-- **C10.** If the console text contains the `Failures:` marker but no
position after it starts a duration stamp, the bounded region fails to match
and the Failure Extractor returns the empty sequence. -/
theorem extract_failures_requires_duration (c s : Str)
    (h1 : afterSub c "Failures:".toList = some s)
    (h2 : takeUntilDuration s = none) :
    extract_failures c = [] := by
  unfold extract_failures
  rw [h1]
  show (match takeUntilDuration s with
        | none => []
        | some region => scanScenarios region.length region) = []
  rw [h2]

def consoleW10 : Str := "Failures:\nScenario: x # y".toList

/-- Witness for C10: marker present, no duration stamp, empty result. -/
theorem extract_failures_requires_duration_witness :
    afterSub consoleW10 "Failures:".toList = some "\nScenario: x # y".toList
    ∧ takeUntilDuration "\nScenario: x # y".toList = none
    ∧ extract_failures consoleW10 = [] :=
  ⟨by decide, by decide,
    extract_failures_requires_duration consoleW10 "\nScenario: x # y".toList
      (by decide) (by decide)⟩

/-- **C6.** The Environment Classifier tries its four patterns in fixed
priority order and returns the first match, lower-cased and stripped, or
`"unknown"`; it returns `"preprod"` on `ENV=preprod`, and on
`Environment: prod` (where patterns 1 and 2 fail) it falls through to
pattern 3 and returns `"prod"`. -/
theorem extract_env_priority :
    (∀ c : Str, extract_env c = specEnvCascade c)
    ∧ extract_env "ENV=preprod".toList = "preprod".toList
    ∧ tryPat1 "Environment: prod".toList = none
    ∧ tryPat2 "Environment: prod".toList = none
    ∧ extract_env "Environment: prod".toList = "prod".toList := by
  refine ⟨?_, by decide, by decide, by decide, by decide⟩
  intro c
  simp only [extract_env, envPatterns, firstEnvMatch, specEnvCascade]
  cases tryPat1 c <;> cases tryPat2 c <;> cases tryPat3 c <;> cases tryPat4 c <;> rfl

/-! # C5: the Failure Extractor and whitespace trimming -/

/-- Characters before the first `#` of `s` (`none` when there is no `#`). -/
def upToHash1 : Str → Option Str
  | [] => none
  | c :: t => if c = '#' then some [] else (upToHash1 t).map (fun r => c :: r)

/-- Closed form of the lazy capture `(.*?)\s*#`: the prefix before the first
`#` with its trailing whitespace removed, failing when that trimmed name
would span a line break; the consumed length runs through the `#`. -/
def capSpec (s : Str) : Option (Str × Nat) :=
  match upToHash1 s with
  | none => none
  | some pre =>
    if '\n' ∈ rstripStr pre then none else some (rstripStr pre, pre.length + 1)

theorem wsHashLen_hash (t : Str) : wsHashLen ('#' :: t) = some 1 := by
  unfold wsHashLen
  rw [List.takeWhile_cons_of_neg (by decide)]
  simp

theorem wsHashLen_cons_space (c : Char) (t : Str) (h : isSpaceC c = true) :
    wsHashLen (c :: t) = (wsHashLen t).map (fun j => j + 1) := by
  simp only [wsHashLen, List.takeWhile_cons_of_pos h, List.length_cons, List.drop_succ_cons]
  by_cases hh : (t.drop (t.takeWhile isSpaceC).length).head? = some '#'
  · rw [if_pos hh, if_pos hh]; rfl
  · rw [if_neg hh, if_neg hh]; rfl

theorem wsHashLen_cons_other (c : Char) (t : Str) (h : ¬ isSpaceC c = true) (hc : c ≠ '#') :
    wsHashLen (c :: t) = none := by
  simp only [wsHashLen, List.takeWhile_cons_of_neg h, List.length_nil, List.drop_zero]
  rw [if_neg (by simp [hc])]

theorem upToHash1_hash (t : Str) : upToHash1 ('#' :: t) = some [] := by simp [upToHash1]

theorem upToHash1_cons (c : Char) (t : Str) (hc : c ≠ '#') :
    upToHash1 (c :: t) = (upToHash1 t).map (fun r => c :: r) := by simp [upToHash1, hc]

theorem hash_not_mem_of_upToHash1_none : ∀ s : Str, upToHash1 s = none → '#' ∉ s := by
  intro s
  induction s with
  | nil => intro _ h; simp at h
  | cons c t ih =>
    intro h
    by_cases hc : c = '#'
    · subst hc; rw [upToHash1_hash] at h; cases h
    · rw [upToHash1_cons c t hc] at h
      have ht : upToHash1 t = none := by
        cases hu : upToHash1 t
        · rfl
        · rw [hu] at h; cases h
      intro hm
      rcases List.mem_cons.mp hm with h1 | h2
      · exact hc h1.symm
      · exact ih ht h2

theorem hash_mem_of_wsHashLen_some (s : Str) (j : Nat) (h : wsHashLen s = some j) :
    '#' ∈ s := by
  simp only [wsHashLen] at h
  by_cases hh : (s.drop (s.takeWhile isSpaceC).length).head? = some '#'
  · cases hd : s.drop (s.takeWhile isSpaceC).length with
    | nil => rw [hd] at hh; simp at hh
    | cons a u =>
      rw [hd] at hh
      simp at hh
      subst hh
      exact List.mem_of_mem_drop (hd ▸ List.mem_cons_self _ _)
  · rw [if_neg hh] at h; cases h

theorem wsHashLen_of_allws : ∀ s : Str, ∀ pre : Str, upToHash1 s = some pre →
    pre.all isSpaceC = true → wsHashLen s = some (pre.length + 1) := by
  intro s
  induction s with
  | nil => intro pre h; simp [upToHash1] at h
  | cons c t ih =>
    intro pre h hall
    by_cases hc : c = '#'
    · subst hc
      rw [upToHash1_hash] at h
      injection h with h2
      subst h2
      exact wsHashLen_hash t
    · rw [upToHash1_cons c t hc] at h
      cases hu : upToHash1 t with
      | none => rw [hu] at h; cases h
      | some pre' =>
        rw [hu] at h
        injection h with h2
        subst h2
        have hcws : isSpaceC c = true := by
          have := List.all_eq_true.mp hall c (List.mem_cons_self _ _)
          exact this
        have hps : pre'.all isSpaceC = true :=
          List.all_eq_true.mpr fun x hx =>
            List.all_eq_true.mp hall x (List.mem_cons_of_mem _ hx)
        rw [wsHashLen_cons_space c t hcws, ih pre' hu hps]
        rfl

theorem allws_of_wsHashLen_some : ∀ s : Str, ∀ j : Nat, wsHashLen s = some j →
    ∃ pre, upToHash1 s = some pre ∧ pre.all isSpaceC = true := by
  intro s
  induction s with
  | nil => intro j h; simp [wsHashLen] at h
  | cons c t ih =>
    intro j h
    by_cases hc : c = '#'
    · subst hc; exact ⟨[], upToHash1_hash t, rfl⟩
    · by_cases hw : isSpaceC c = true
      · rw [wsHashLen_cons_space c t hw] at h
        cases hj : wsHashLen t with
        | none => rw [hj] at h; cases h
        | some j2 =>
          obtain ⟨pre', h1, h2⟩ := ih j2 hj
          refine ⟨c :: pre', ?_, ?_⟩
          · rw [upToHash1_cons c t hc, h1]; rfl
          · simp [List.all_cons, hw, h2]
      · rw [wsHashLen_cons_other c t hw hc] at h; cases h

theorem rstrip_allws (s : Str) (h : s.all isSpaceC = true) : rstripStr s = [] := by
  unfold rstripStr
  have hh : s.reverse.dropWhile isSpaceC = [] := by
    rw [List.dropWhile_eq_nil_iff]
    intro x hx
    exact List.all_eq_true.mp h x (List.mem_reverse.mp hx)
  rw [hh]
  rfl

theorem rstrip_cons_of_not_allws (c : Char) (s : Str) (h : ¬ s.all isSpaceC = true) :
    rstripStr (c :: s) = c :: rstripStr s := by
  unfold rstripStr
  rw [List.reverse_cons, List.dropWhile_append]
  have hne : s.reverse.dropWhile isSpaceC ≠ [] := by
    rw [Ne, List.dropWhile_eq_nil_iff]
    intro hall
    exact h (List.all_eq_true.mpr fun x hx => hall x (List.mem_reverse.mpr hx))
  rw [if_neg (by simpa [List.isEmpty_iff] using hne)]
  simp

theorem rstrip_cons_of_allws (c : Char) (s : Str) (hc : ¬ isSpaceC c = true)
    (h : s.all isSpaceC = true) : rstripStr (c :: s) = [c] := by
  unfold rstripStr
  rw [List.reverse_cons, List.dropWhile_append]
  have hnil : s.reverse.dropWhile isSpaceC = [] := by
    rw [List.dropWhile_eq_nil_iff]
    intro x hx
    exact List.all_eq_true.mp h x (List.mem_reverse.mp hx)
  rw [if_pos (by simp [hnil])]
  rw [List.dropWhile_cons_of_neg hc]
  rfl

/-- The faithful lazy-capture scan equals its closed form. -/
theorem lazyCapture_eq_capSpec : ∀ s : Str, lazyCapture s = capSpec s := by
  intro s
  induction s with
  | nil => rfl
  | cons c t ih =>
    by_cases hc : c = '#'
    · subst hc
      unfold lazyCapture capSpec
      rw [wsHashLen_hash, upToHash1_hash]
      simp [rstripStr]
    · unfold lazyCapture capSpec
      rw [upToHash1_cons c t hc]
      cases hu : upToHash1 t with
      | none =>
        have hnm : '#' ∉ t := hash_not_mem_of_upToHash1_none t hu
        have hws : wsHashLen (c :: t) = none := by
          cases hj : wsHashLen (c :: t) with
          | none => rfl
          | some j =>
            rcases List.mem_cons.mp (hash_mem_of_wsHashLen_some _ _ hj) with h1 | h2
            · exact absurd h1.symm hc
            · exact absurd h2 hnm
        rw [hws, ih]
        unfold capSpec
        rw [hu]
        simp
      | some pre =>
        by_cases hall : pre.all isSpaceC = true
        · by_cases hcw : isSpaceC c = true
          · have hws : wsHashLen (c :: t) = some ((c :: pre).length + 1) := by
              apply wsHashLen_of_allws (c :: t) (c :: pre)
              · rw [upToHash1_cons c t hc, hu]; rfl
              · simp [List.all_cons, hcw, hall]
            rw [hws]
            simp [rstrip_allws (c :: pre) (by simp [List.all_cons, hcw, hall])]
          · have hws : wsHashLen (c :: t) = none := wsHashLen_cons_other c t hcw hc
            have hcn : c ≠ '\n' := by
              intro h; subst h; exact hcw (by decide)
            have hcn2 : ¬ ('\n' = c) := fun h => hcn h.symm
            simp [hws, hcn, hcn2, ih, capSpec, hu,
              rstrip_cons_of_allws c pre hcw hall, rstrip_allws pre hall]
        · have hws : wsHashLen (c :: t) = none := by
            cases hj : wsHashLen (c :: t) with
            | none => rfl
            | some j =>
              obtain ⟨pre0, hp0, ha0⟩ := allws_of_wsHashLen_some _ _ hj
              rw [upToHash1_cons c t hc, hu] at hp0
              injection hp0 with hp1
              rw [← hp1] at ha0
              exact (hall (List.all_eq_true.mpr fun x hx =>
                List.all_eq_true.mp ha0 x (List.mem_cons_of_mem _ hx))).elim
          by_cases hcn : c = '\n'
          · subst hcn
            simp [hws, hu, rstrip_cons_of_not_allws '\n' pre hall]
          · have hcn2 : ¬ ('\n' = c) := fun h => hcn h.symm
            simp only [hws, hu, ih, capSpec, Option.map_some']
            rw [rstrip_cons_of_not_allws c pre hall]
            by_cases hni : '\n' ∈ rstripStr pre
            · simp [hcn, hni]
            · simp [hcn, hcn2, hni]

/-- The amended-specification scan: at each occurrence of `"Scenario: "` the
name is the text up to the next `#` with its trailing whitespace trimmed
(leading whitespace preserved), skipped when it would span a line break. -/
def scanScenariosSpec : Nat → Str → List Str
  | 0, _ => []
  | fuel + 1, s =>
    if "Scenario: ".toList.isPrefixOf s then
      let rest := s.drop 10
      match capSpec rest with
      | some (cap, used) => cap :: scanScenariosSpec fuel (rest.drop used)
      | none =>
        match s with
        | [] => []
        | _ :: t => scanScenariosSpec fuel t
    else
      match s with
      | [] => []
      | _ :: t => scanScenariosSpec fuel t

theorem scanScenarios_eq_spec : ∀ fuel s, scanScenarios fuel s = scanScenariosSpec fuel s := by
  intro fuel
  induction fuel with
  | zero => intro s; rfl
  | succ n ih =>
    intro s
    unfold scanScenarios scanScenariosSpec
    by_cases hp : "Scenario: ".toList.isPrefixOf s = true
    · rw [if_pos hp, if_pos hp]
      simp only [lazyCapture_eq_capSpec]
      cases capSpec (s.drop 10) with
      | none =>
        cases s with
        | nil => rfl
        | cons c t => exact ih t
      | some p =>
        rcases p with ⟨cap, used⟩
        show cap :: scanScenarios n ((s.drop 10).drop used)
            = cap :: scanScenariosSpec n ((s.drop 10).drop used)
        rw [ih]
    · rw [if_neg hp, if_neg hp]
      cases s with
      | nil => rfl
      | cons c t => exact ih t

/-- The Failure Extractor as described by the amended claim. -/
def specFailuresAmended (console : Str) : List Str :=
  match afterSub console "Failures:".toList with
  | none => []
  | some s =>
    match takeUntilDuration s with
    | none => []
    | some region => scanScenariosSpec region.length region

/-- The Failure Extractor as described by the original claim: surrounding
whitespace trimmed from both ends of each name. -/
def scanScenariosClaim : Nat → Str → List Str
  | 0, _ => []
  | fuel + 1, s =>
    if "Scenario: ".toList.isPrefixOf s then
      let rest := s.drop 10
      match upToHash1 rest with
      | some pre => stripStr pre :: scanScenariosClaim fuel (rest.drop (pre.length + 1))
      | none =>
        match s with
        | [] => []
        | _ :: t => scanScenariosClaim fuel t
    else
      match s with
      | [] => []
      | _ :: t => scanScenariosClaim fuel t

def specFailuresClaim (console : Str) : List Str :=
  match afterSub console "Failures:".toList with
  | none => []
  | some s =>
    match takeUntilDuration s with
    | none => []
    | some region => scanScenariosClaim region.length region

theorem afterSub_none_of_not_contains :
    ∀ hay needle : Str, containsSub hay needle = false → afterSub hay needle = none := by
  intro hay
  induction hay with
  | nil =>
    intro n h
    unfold containsSub at h
    unfold afterSub
    by_cases hp : n.isPrefixOf ([] : Str) = true
    · rw [if_pos hp] at h; cases h
    · rw [if_neg hp]
  | cons c t ih =>
    intro n h
    unfold containsSub at h
    unfold afterSub
    by_cases hp : n.isPrefixOf (c :: t) = true
    · rw [if_pos hp] at h; cases h
    · rw [if_neg hp] at h
      rw [if_neg hp]
      exact ih n h

def consoleC5 : Str := "Failures:\nScenario:  padded # x\n1m2.3s (executing steps: ".toList

/-- **C5 counterexample.** On a name written with an extra space after the
`Scenario: ` literal, the extractor keeps the leading whitespace: the claim's
"surrounding whitespace trimmed" reading would give `"padded"`, the code
gives `" padded"`. -/
theorem extract_failures_keeps_leading_space :
    extract_failures consoleC5 = [" padded".toList]
    ∧ specFailuresClaim consoleC5 = ["padded".toList]
    ∧ extract_failures consoleC5 ≠ specFailuresClaim consoleC5 :=
  ⟨by decide, by decide, by decide⟩

/-- **C5 (amended).** For every console text containing the `Failures:`
marker, the Failure Extractor returns, in order within the region bounded by
the marker and the next duration stamp, every substring following the
literal `"Scenario: "` up to but not including the next `#`, with TRAILING
whitespace trimmed (leading whitespace preserved, candidates spanning a line
break skipped); if the marker is absent it returns the empty sequence. -/
theorem extract_failures_amended :
    (∀ c : Str, extract_failures c = specFailuresAmended c)
    ∧ (∀ c : Str, containsSub c "Failures:".toList = false → extract_failures c = []) := by
  constructor
  · intro c
    unfold extract_failures specFailuresAmended
    cases afterSub c "Failures:".toList with
    | none => rfl
    | some s =>
      show (match takeUntilDuration s with
            | none => []
            | some region => scanScenarios region.length region)
          = (match takeUntilDuration s with
             | none => []
             | some region => scanScenariosSpec region.length region)
      cases takeUntilDuration s with
      | none => rfl
      | some region => exact scanScenarios_eq_spec _ _
  · intro c h
    unfold extract_failures
    rw [afterSub_none_of_not_contains c "Failures:".toList h]

/-- Witness for the amended C5 at concrete inputs. -/
theorem extract_failures_amended_witness :
    containsSub "no marker here".toList "Failures:".toList = false
    ∧ extract_failures "no marker here".toList = []
    ∧ extract_failures consoleC5 = specFailuresAmended consoleC5 :=
  ⟨by decide, extract_failures_amended.2 _ (by decide), extract_failures_amended.1 consoleC5⟩

/-! # C9: stability and failure percentage -/

theorem qfloor_zero : qfloor 0 = 0 := by
  unfold qfloor
  norm_num

theorem pyRound2_zero : pyRound2 0 = 0 := by
  have h1 : roundHalfEven 0 = 0 := by
    unfold roundHalfEven
    rw [qfloor_zero]
    norm_num
  unfold pyRound2
  rw [show (0 : ℚ) * 100 = 0 from by norm_num, h1]
  norm_num

/-- **C9.** In every report row, `stability` is `passed/total × 100` rounded
to two decimals and `failure_percentage` is `failed/total × 100` rounded to
two decimals, and both are exactly 0 when the scenario total is 0 — the
division is guarded, so it is never performed on a zero total. -/
theorem report_row_stability (d e : Str) (b : Bucket) :
    (b.scenarios.total = 0 →
      (makeRow d e b).stability = 0 ∧ (makeRow d e b).failure_percentage = 0)
    ∧ (0 < b.scenarios.total →
      (makeRow d e b).stability =
        pyRound2 ((b.scenarios.passed : ℚ) / (b.scenarios.total : ℚ) * 100)
      ∧ (makeRow d e b).failure_percentage =
        pyRound2 ((b.scenarios.failed : ℚ) / (b.scenarios.total : ℚ) * 100)) := by
  constructor
  · intro h
    constructor
    · show pyRound2 (if 0 < b.scenarios.total then
          (b.scenarios.passed : ℚ) / (b.scenarios.total : ℚ) * 100 else 0) = 0
      rw [h, if_neg (by norm_num)]
      exact pyRound2_zero
    · show pyRound2 (if 0 < b.scenarios.total then
          (b.scenarios.failed : ℚ) / (b.scenarios.total : ℚ) * 100 else 0) = 0
      rw [h, if_neg (by norm_num)]
      exact pyRound2_zero
  · intro h
    constructor
    · show pyRound2 (if 0 < b.scenarios.total then
          (b.scenarios.passed : ℚ) / (b.scenarios.total : ℚ) * 100 else 0) = _
      rw [if_pos h]
    · show pyRound2 (if 0 < b.scenarios.total then
          (b.scenarios.failed : ℚ) / (b.scenarios.total : ℚ) * 100 else 0) = _
      rw [if_pos h]

def bucketW9a : Bucket := ⟨[3], zeroCounts, zeroCounts, []⟩

def bucketW9b : Bucket := ⟨[4], ⟨3, 2, 1, 0⟩, zeroCounts, []⟩

/-- Witness for C9 at a zero-total and a non-zero-total bucket. -/
theorem report_row_stability_witness :
    ((makeRow "2024-01-01".toList "prod".toList bucketW9a).stability = 0
      ∧ (makeRow "2024-01-01".toList "prod".toList bucketW9a).failure_percentage = 0)
    ∧ ((makeRow "2024-01-01".toList "prod".toList bucketW9b).stability =
          pyRound2 ((bucketW9b.scenarios.passed : ℚ) / (bucketW9b.scenarios.total : ℚ) * 100)
      ∧ (makeRow "2024-01-01".toList "prod".toList bucketW9b).failure_percentage =
          pyRound2 ((bucketW9b.scenarios.failed : ℚ) / (bucketW9b.scenarios.total : ℚ) * 100)) :=
  ⟨(report_row_stability _ _ bucketW9a).1 rfl,
   (report_row_stability _ _ bucketW9b).2 (by decide)⟩

/-! # Aggregate-map lemmas -/

theorem lookupKey_updateKey_self (m : AggMap) (k : BKey) (v : Bucket) :
    lookupKey (updateKey m k v) k = some v := by
  induction m with
  | nil => simp [updateKey, lookupKey]
  | cons e rest ih =>
    rcases e with ⟨k0, b0⟩
    unfold updateKey
    by_cases hk : k = k0
    · rw [if_pos hk]
      simp [lookupKey, hk]
    · rw [if_neg hk]
      simp [lookupKey, hk, ih]

theorem lookupKey_updateKey_other (m : AggMap) (k : BKey) (v : Bucket) (k2 : BKey)
    (h : k2 ≠ k) : lookupKey (updateKey m k v) k2 = lookupKey m k2 := by
  induction m with
  | nil => simp [updateKey, lookupKey, h]
  | cons e rest ih =>
    rcases e with ⟨k0, b0⟩
    unfold updateKey
    by_cases hk : k = k0
    · rw [if_pos hk]
      subst hk
      simp [lookupKey, h]
    · rw [if_neg hk]
      by_cases hk2 : k2 = k0
      · simp [lookupKey, hk2]
      · simp [lookupKey, hk2, ih]

theorem mem_updateKey (m : AggMap) (k : BKey) (v : Bucket) (p : BKey × Bucket)
    (h : p ∈ updateKey m k v) : p ∈ m ∨ p.1 = k := by
  induction m with
  | nil =>
    simp [updateKey] at h
    subst h
    exact Or.inr rfl
  | cons e rest ih =>
    rcases e with ⟨k0, b0⟩
    unfold updateKey at h
    by_cases hk : k = k0
    · rw [if_pos hk] at h
      rcases List.mem_cons.mp h with h1 | h1
      · subst h1; exact Or.inr hk.symm
      · exact Or.inl (List.mem_cons_of_mem _ h1)
    · rw [if_neg hk] at h
      rcases List.mem_cons.mp h with h1 | h1
      · subst h1; exact Or.inl (List.mem_cons_self _ _)
      · rcases ih h1 with h2 | h2
        · exact Or.inl (List.mem_cons_of_mem _ h2)
        · exact Or.inr h2

theorem mem_of_lookupKey_some (m : AggMap) (k : BKey) (b : Bucket)
    (h : lookupKey m k = some b) : (k, b) ∈ m := by
  induction m with
  | nil => simp [lookupKey] at h
  | cons e rest ih =>
    rcases e with ⟨k0, b0⟩
    unfold lookupKey at h
    by_cases hk : k = k0
    · rw [if_pos hk] at h
      injection h with h2
      subst h2
      subst hk
      exact List.mem_cons_self _ _
    · rw [if_neg hk] at h
      exact List.mem_cons_of_mem _ (ih h)

/-! # Aggregation invariant -/

/-- The bucket update performed for one fetched build. -/
def appendBuild (src : JenkinsSource) (i : Int) (b : Bucket) : Bucket :=
  { builds := b.builds ++ [i]
    scenarios := addCounts b.scenarios (perBuildScen src i)
    steps := addCounts b.steps (perBuildSteps src i)
    failed_scenarios := b.failed_scenarios ++ perBuildFails src i }

theorem processBuild_not_fetched (src : JenkinsSource) (acc : AggMap) (i : Int)
    (h : isFetched src i = false) : processBuild src acc i = acc := by
  unfold processBuild
  unfold isFetched at h
  cases ht : src.buildTimestamp i with
  | none => rfl
  | some ts =>
    rw [ht] at h
    simp only [Option.isSome_some, Bool.true_and] at h
    cases hc : src.consoleText i with
    | none => rfl
    | some con => rw [hc] at h; simp at h

theorem processBuild_fetched (src : JenkinsSource) (acc : AggMap) (i : Int)
    (ts : Int) (con : Str)
    (ht : src.buildTimestamp i = some ts) (hc : src.consoleText i = some con) :
    processBuild src acc i =
      updateKey acc (buildKey src i)
        (appendBuild src i ((lookupKey acc (buildKey src i)).getD emptyBucket)) := by
  unfold processBuild buildKey appendBuild perBuildScen perBuildSteps perBuildFails
  rw [ht, hc]

/-- The fetched builds of the processed prefix that land in bucket `k`. -/
def keyList (src : JenkinsSource) (P : List Int) (k : BKey) : List Int :=
  (P.filter (isFetched src)).filter (fun i => decide (buildKey src i = k))

/-- The scenario-total contribution of those builds. -/
def sumScenTotals (src : JenkinsSource) (P : List Int) (k : BKey) : Nat :=
  ((keyList src P k).map (fun i => (perBuildScen src i).total)).sum

theorem keyList_append_not_fetched (src : JenkinsSource) (P : List Int) (i : Int)
    (k : BKey) (h : isFetched src i = false) :
    keyList src (P ++ [i]) k = keyList src P k := by
  unfold keyList
  rw [List.filter_append]
  simp [List.filter, h]

theorem keyList_append_fetched (src : JenkinsSource) (P : List Int) (i : Int)
    (k : BKey) (h : isFetched src i = true) :
    keyList src (P ++ [i]) k =
      keyList src P k ++ (if buildKey src i = k then [i] else []) := by
  unfold keyList
  rw [List.filter_append]
  by_cases hk : buildKey src i = k
  · simp [List.filter, h, hk]
  · simp [List.filter, h, hk]

/-- Invariant carried through the aggregation fold: every present bucket
holds exactly the fetched builds of the processed prefix with its key, with
the scenario totals summed, and absent keys have no such builds. -/
def InvAgg (src : JenkinsSource) (acc : AggMap) (P : List Int) : Prop :=
  (∀ k b, lookupKey acc k = some b →
      b.builds = keyList src P k ∧ b.scenarios.total = sumScenTotals src P k)
  ∧ (∀ k, lookupKey acc k = none → keyList src P k = [])

theorem invAgg_step (src : JenkinsSource) (acc : AggMap) (P : List Int) (i : Int)
    (h : InvAgg src acc P) : InvAgg src (processBuild src acc i) (P ++ [i]) := by
  cases hf : isFetched src i with
  | false =>
    rw [processBuild_not_fetched src acc i hf]
    constructor
    · intro k b hb
      obtain ⟨h1, h2⟩ := h.1 k b hb
      refine ⟨?_, ?_⟩
      · rw [keyList_append_not_fetched src P i k hf]; exact h1
      · unfold sumScenTotals
        rw [keyList_append_not_fetched src P i k hf]
        exact h2
    · intro k hk
      rw [keyList_append_not_fetched src P i k hf]
      exact h.2 k hk
  | true =>
    obtain ⟨ts, ht⟩ := Option.isSome_iff_exists.mp (by
      unfold isFetched at hf
      exact (Bool.and_eq_true_iff.mp hf).1)
    obtain ⟨con, hc⟩ := Option.isSome_iff_exists.mp (by
      unfold isFetched at hf
      exact (Bool.and_eq_true_iff.mp hf).2)
    rw [processBuild_fetched src acc i ts con ht hc]
    constructor
    · intro k b hb
      by_cases hk : k = buildKey src i
      · subst hk
        rw [lookupKey_updateKey_self] at hb
        injection hb with hb2
        subst hb2
        cases hl : lookupKey acc (buildKey src i) with
        | none =>
          have hkl : keyList src P (buildKey src i) = [] := h.2 _ hl
          constructor
          · show emptyBucket.builds ++ [i] = _
            rw [keyList_append_fetched src P i (buildKey src i) hf, hkl, if_pos rfl]
            rfl
          · show emptyBucket.scenarios.total + (perBuildScen src i).total = _
            unfold sumScenTotals
            rw [keyList_append_fetched src P i (buildKey src i) hf, hkl, if_pos rfl]
            simp [emptyBucket, zeroCounts]
        | some b0 =>
          obtain ⟨hb0, ht0⟩ := h.1 _ b0 hl
          constructor
          · show b0.builds ++ [i] = _
            rw [keyList_append_fetched src P i (buildKey src i) hf, if_pos rfl, hb0]
          · show b0.scenarios.total + (perBuildScen src i).total = _
            unfold sumScenTotals
            rw [keyList_append_fetched src P i (buildKey src i) hf, if_pos rfl]
            unfold sumScenTotals at ht0
            rw [List.map_append, List.sum_append, ← ht0]
            simp
      · rw [lookupKey_updateKey_other acc (buildKey src i) _ k hk] at hb
        obtain ⟨h1, h2⟩ := h.1 k b hb
        have hne : ¬ (buildKey src i = k) := fun hh => hk hh.symm
        refine ⟨?_, ?_⟩
        · rw [keyList_append_fetched src P i k hf, if_neg hne, List.append_nil]
          exact h1
        · unfold sumScenTotals
          rw [keyList_append_fetched src P i k hf, if_neg hne, List.append_nil]
          exact h2
    · intro k hk
      by_cases hkk : k = buildKey src i
      · subst hkk
        rw [lookupKey_updateKey_self] at hk
        cases hk
      · rw [lookupKey_updateKey_other acc (buildKey src i) _ k hkk] at hk
        have hne : ¬ (buildKey src i = k) := fun hh => hkk hh.symm
        rw [keyList_append_fetched src P i k hf, if_neg hne, List.append_nil]
        exact h.2 k hk

theorem invAgg_foldl (src : JenkinsSource) :
    ∀ L P (acc : AggMap), InvAgg src acc P →
      InvAgg src (L.foldl (processBuild src) acc) (P ++ L) := by
  intro L
  induction L with
  | nil => intro P acc h; simpa using h
  | cons i L ih =>
    intro P acc h
    have h3 := ih (P ++ [i]) (processBuild src acc i) (invAgg_step src acc P i h)
    rw [List.append_assoc] at h3
    simpa using h3

/-- **C1.** With a target window of `n` builds the aggregator iterates the
`n` consecutive numbers descending from the latest build (`descRange`),
skips every build whose metadata or console fetch fails, and returns a
mapping covering exactly the fetched builds: every bucket holds precisely
the fetched builds of the window with its `(date, env)` key and its
`scenarios.total` is the sum of those builds' per-build scenario totals,
every fetched build appears in its bucket, and a failed latest-build fetch
yields the empty mapping. -/
theorem aggregate_last_n_builds_spec (src : JenkinsSource) (n : Nat) :
    (src.lastBuildNumber = none → aggregate_last_n_builds src n = [])
    ∧ (∀ k b, lookupKey (aggregate_last_n_builds src n) k = some b →
        b.builds = (fetchedBuilds src n).filter (fun i => decide (buildKey src i = k))
        ∧ b.scenarios.total =
            (((fetchedBuilds src n).filter (fun i => decide (buildKey src i = k))).map
              (fun i => (perBuildScen src i).total)).sum)
    ∧ (∀ i, i ∈ fetchedBuilds src n →
        ∃ b, lookupKey (aggregate_last_n_builds src n) (buildKey src i) = some b
          ∧ i ∈ b.builds) := by
  cases hl : src.lastBuildNumber with
  | none =>
    refine ⟨fun _ => ?_, ?_, ?_⟩
    · unfold aggregate_last_n_builds
      rw [hl]
    · intro k b hb
      unfold aggregate_last_n_builds at hb
      rw [hl] at hb
      simp [lookupKey] at hb
    · intro i hi
      unfold fetchedBuilds at hi
      rw [hl] at hi
      simp at hi
  | some latest =>
    have base : InvAgg src [] [] := by
      constructor
      · intro k b hb; simp [lookupKey] at hb
      · intro k _; rfl
    have hInv := invAgg_foldl src (descRange latest n) [] [] base
    rw [List.nil_append] at hInv
    have hAgg : aggregate_last_n_builds src n
        = (descRange latest n).foldl (processBuild src) [] := by
      unfold aggregate_last_n_builds
      rw [hl]
    have hFet : fetchedBuilds src n = (descRange latest n).filter (isFetched src) := by
      unfold fetchedBuilds
      rw [hl]
    refine ⟨fun hno => ?_, ?_, ?_⟩
    · simp at hno
    · intro k b hb
      rw [hAgg] at hb
      obtain ⟨h1, h2⟩ := hInv.1 k b hb
      rw [hFet]
      exact ⟨h1, h2⟩
    · intro i hi
      rw [hFet] at hi
      cases hb : lookupKey (aggregate_last_n_builds src n) (buildKey src i) with
      | none =>
        rw [hAgg] at hb
        have h0 : keyList src (descRange latest n) (buildKey src i) = [] := hInv.2 _ hb
        have hin : i ∈ keyList src (descRange latest n) (buildKey src i) := by
          unfold keyList
          exact List.mem_filter.mpr ⟨hi, by simp⟩
        rw [h0] at hin
        cases hin
      | some b =>
        refine ⟨b, rfl, ?_⟩
        rw [hAgg] at hb
        have h1 := (hInv.1 _ b hb).1
        rw [h1]
        unfold keyList
        exact List.mem_filter.mpr ⟨hi, by simp⟩

def srcW1 : JenkinsSource :=
  { lastBuildNumber := some 7
    buildTimestamp := fun i => if i = 7 then some 1700000000000 else none
    consoleText := fun i => if i = 7 then some "ENV=prod".toList else none
    tzOffset := 0 }

/-- Witness for C1: a fetched build lands in its bucket. -/
theorem aggregate_last_n_builds_spec_witness :
    (7 : Int) ∈ fetchedBuilds srcW1 1
    ∧ ∃ b, lookupKey (aggregate_last_n_builds srcW1 1) (buildKey srcW1 7) = some b
        ∧ (7 : Int) ∈ b.builds :=
  ⟨by decide, (aggregate_last_n_builds_spec srcW1 1).2.2 7 (by decide)⟩

/-! # C7: normalized environment labels -/

theorem buildKey_env (src : JenkinsSource) (i : Int) (con : Str)
    (hc : src.consoleText i = some con) :
    (buildKey src i).2 = normalizeEnv (extract_env con) := by
  unfold buildKey
  rw [hc]

theorem normalizeEnv_ok (e : Str) :
    normalizeEnv e = "prod".toList ∨ normalizeEnv e = "preprod".toList
    ∨ normalizeEnv e = "ran_manually".toList := by
  unfold normalizeEnv
  by_cases h : e = "prod".toList ∨ e = "preprod".toList
  · rw [if_pos h]
    rcases h with h | h
    · exact Or.inl h
    · exact Or.inr (Or.inl h)
  · rw [if_neg h]
    exact Or.inr (Or.inr rfl)

theorem foldl_env_ok (src : JenkinsSource) :
    ∀ (L : List Int) (acc : AggMap),
      (∀ p ∈ acc, p.1.2 = "prod".toList ∨ p.1.2 = "preprod".toList
        ∨ p.1.2 = "ran_manually".toList) →
      ∀ p ∈ L.foldl (processBuild src) acc,
        p.1.2 = "prod".toList ∨ p.1.2 = "preprod".toList
        ∨ p.1.2 = "ran_manually".toList := by
  intro L
  induction L with
  | nil => intro acc h p hp; exact h p hp
  | cons i L ih =>
    intro acc h p hp
    rw [List.foldl_cons] at hp
    refine ih (processBuild src acc i) ?_ p hp
    intro q hq
    cases hf : isFetched src i with
    | false =>
      rw [processBuild_not_fetched src acc i hf] at hq
      exact h q hq
    | true =>
      obtain ⟨ts, ht⟩ := Option.isSome_iff_exists.mp (by
        unfold isFetched at hf
        exact (Bool.and_eq_true_iff.mp hf).1)
      obtain ⟨con, hc⟩ := Option.isSome_iff_exists.mp (by
        unfold isFetched at hf
        exact (Bool.and_eq_true_iff.mp hf).2)
      rw [processBuild_fetched src acc i ts con ht hc] at hq
      rcases mem_updateKey _ _ _ _ hq with h1 | h1
      · exact h q h1
      · rw [h1, buildKey_env src i con hc]
        exact normalizeEnv_ok _

theorem agg_mem_env_ok (src : JenkinsSource) (n : Nat) :
    ∀ p ∈ aggregate_last_n_builds src n,
      p.1.2 = "prod".toList ∨ p.1.2 = "preprod".toList
      ∨ p.1.2 = "ran_manually".toList := by
  intro p hp
  unfold aggregate_last_n_builds at hp
  cases hl : src.lastBuildNumber with
  | none => rw [hl] at hp; simp at hp
  | some latest =>
    rw [hl] at hp
    exact foldl_env_ok src (descRange latest n) [] (by intro q hq; simp at hq) p hp

/-- **C7.** Every bucket key of the aggregate carries one of the three
normalized environment labels; no other string reaches a bucket key. -/
theorem aggregate_env_label (src : JenkinsSource) (n : Nat) (k : BKey) (b : Bucket)
    (h : lookupKey (aggregate_last_n_builds src n) k = some b) :
    k.2 = "prod".toList ∨ k.2 = "preprod".toList ∨ k.2 = "ran_manually".toList :=
  agg_mem_env_ok src n (k, b) (mem_of_lookupKey_some _ _ _ h)

def bucketW7 : Bucket := Bucket.mk [7] zeroCounts zeroCounts []

/-- Witness for C7 at a concrete source. -/
theorem aggregate_env_label_witness :
    lookupKey (aggregate_last_n_builds srcW1 1) ("2023-11-14".toList, "prod".toList)
      = some bucketW7
    ∧ ((("2023-11-14".toList, "prod".toList) : BKey).2 = "prod".toList
        ∨ (("2023-11-14".toList, "prod".toList) : BKey).2 = "preprod".toList
        ∨ (("2023-11-14".toList, "prod".toList) : BKey).2 = "ran_manually".toList) := by
  constructor
  · decide
  · exact aggregate_env_label srcW1 1 ("2023-11-14".toList, "prod".toList) bucketW7
      (by decide)

/-! # C8: two builds, same date and environment -/

theorem addCounts_zero_left (c : Counts) : addCounts zeroCounts c = c := by
  cases c
  simp [addCounts, zeroCounts]

/-- **C8.** If the window of size 2 consists of two fetchable builds that
fall on the same date and normalized environment, the aggregate is a single
bucket whose build list has length 2 and whose scenario and step counters
are the componentwise sums of the two builds' counters. -/
theorem two_builds_one_bucket (src : JenkinsSource) (b1 : Int) (d e : Str)
    (hl : src.lastBuildNumber = some b1)
    (ht1 : (src.buildTimestamp b1).isSome = true)
    (hc1 : (src.consoleText b1).isSome = true)
    (ht2 : (src.buildTimestamp (b1 - 1)).isSome = true)
    (hc2 : (src.consoleText (b1 - 1)).isSome = true)
    (hk1 : buildKey src b1 = (d, e))
    (hk2 : buildKey src (b1 - 1) = (d, e)) :
    ∃ b : Bucket,
      aggregate_last_n_builds src 2 = [((d, e), b)]
      ∧ b.builds = [b1, b1 - 1]
      ∧ b.builds.length = 2
      ∧ b.scenarios = addCounts (perBuildScen src b1) (perBuildScen src (b1 - 1))
      ∧ b.steps = addCounts (perBuildSteps src b1) (perBuildSteps src (b1 - 1)) := by
  obtain ⟨ts1, hts1⟩ := Option.isSome_iff_exists.mp ht1
  obtain ⟨con1, hcon1⟩ := Option.isSome_iff_exists.mp hc1
  obtain ⟨ts2, hts2⟩ := Option.isSome_iff_exists.mp ht2
  obtain ⟨con2, hcon2⟩ := Option.isSome_iff_exists.mp hc2
  have hdr : descRange b1 2 = [b1, b1 - 1] := by
    unfold descRange
    rw [show List.range 2 = [0, 1] from by decide]
    simp
  have hAgg : aggregate_last_n_builds src 2
      = processBuild src (processBuild src [] b1) (b1 - 1) := by
    unfold aggregate_last_n_builds
    rw [hl]
    show List.foldl (processBuild src) [] (descRange b1 2) = _
    rw [hdr]
    rfl
  rw [hAgg, processBuild_fetched src [] b1 ts1 con1 hts1 hcon1, hk1]
  have hstep1 : updateKey [] (d, e)
      (appendBuild src b1 ((lookupKey [] (d, e)).getD emptyBucket))
      = [((d, e), appendBuild src b1 emptyBucket)] := rfl
  rw [hstep1, processBuild_fetched src _ (b1 - 1) ts2 con2 hts2 hcon2, hk2]
  have hlk : lookupKey [((d, e), appendBuild src b1 emptyBucket)] (d, e)
      = some (appendBuild src b1 emptyBucket) := by
    simp [lookupKey]
  rw [hlk]
  have hupd : updateKey [((d, e), appendBuild src b1 emptyBucket)] (d, e)
      (appendBuild src (b1 - 1)
        ((some (appendBuild src b1 emptyBucket)).getD emptyBucket))
      = [((d, e), appendBuild src (b1 - 1) (appendBuild src b1 emptyBucket))] := by
    simp [updateKey]
  rw [hupd]
  refine ⟨appendBuild src (b1 - 1) (appendBuild src b1 emptyBucket), rfl, ?_, ?_, ?_, ?_⟩
  · show (emptyBucket.builds ++ [b1]) ++ [b1 - 1] = [b1, b1 - 1]
    rfl
  · show ((emptyBucket.builds ++ [b1]) ++ [b1 - 1]).length = 2
    rfl
  · show addCounts (addCounts emptyBucket.scenarios (perBuildScen src b1)) _ = _
    rw [show emptyBucket.scenarios = zeroCounts from rfl, addCounts_zero_left]
  · show addCounts (addCounts emptyBucket.steps (perBuildSteps src b1)) _ = _
    rw [show emptyBucket.steps = zeroCounts from rfl, addCounts_zero_left]

def consoleW8a : Str :=
  "12:00:00 3 scenarios (2 passed, 1 failed)\n12:00:01 9 steps (9 passed)\nENV=prod".toList

def consoleW8b : Str :=
  "12:00:00 4 scenarios (4 passed)\n12:00:02 8 steps (8 passed)\nENV=prod".toList

def srcW8 : JenkinsSource :=
  { lastBuildNumber := some 5
    buildTimestamp := fun i =>
      if i = 5 then some 1700000000000 else if i = 4 then some 1700000100000 else none
    consoleText := fun i =>
      if i = 5 then some consoleW8a else if i = 4 then some consoleW8b else none
    tzOffset := 0 }

/-- Witness for C8: two concrete same-day `prod` builds. -/
theorem two_builds_one_bucket_witness :
    buildKey srcW8 5 = ("2023-11-14".toList, "prod".toList)
    ∧ buildKey srcW8 (5 - 1) = ("2023-11-14".toList, "prod".toList)
    ∧ ∃ b : Bucket,
        aggregate_last_n_builds srcW8 2 = [(("2023-11-14".toList, "prod".toList), b)]
        ∧ b.builds = [5, 5 - 1]
        ∧ b.builds.length = 2
        ∧ b.scenarios = addCounts (perBuildScen srcW8 5) (perBuildScen srcW8 (5 - 1))
        ∧ b.steps = addCounts (perBuildSteps srcW8 5) (perBuildSteps srcW8 (5 - 1)) := by
  refine ⟨by decide, by decide, ?_⟩
  exact two_builds_one_bucket srcW8 5 "2023-11-14".toList "prod".toList rfl
    (by decide) (by decide) (by decide) (by decide) (by decide) (by decide)

/-! # C2: the report layer -/

def srcC2 : JenkinsSource :=
  { lastBuildNumber := some 10
    buildTimestamp := fun i =>
      if i = 10 then some 1700000000000 else if i = 9 then some 1699900000000 else none
    consoleText := fun i =>
      if i = 10 then some "ENV=prod".toList
      else if i = 9 then some "ENV=prod".toList else none
    tzOffset := 0 }

/-- **C2 counterexample.** The aggregate of two fetched builds on different
dates has two buckets, but the report has a single row: the reporting layer
emits rows only for the latest date, not one row per (date, environment)
bucket of the aggregate. -/
theorem report_not_one_row_per_bucket :
    aggregate_last_n_builds srcC2 2 ≠ []
    ∧ (aggregate_last_n_builds srcC2 2).length = 2
    ∧ (buildReportRows (aggregate_last_n_builds srcC2 2)).length = 1 :=
  ⟨by decide, by decide, by decide⟩

/-- **C2 (amended).** For every non-empty aggregation result the report has
one row per environment bucket of the LATEST (lexicographically greatest)
date only; each such row carries the bucket's date and environment label
(always prod, preprod or ran_manually), and its builds field is the bucket's
build numbers sorted ascending and comma-joined. -/
theorem report_rows_latest_date (src : JenkinsSource) (n : Nat)
    (hne : aggregate_last_n_builds src n ≠ []) :
    (buildReportRows (aggregate_last_n_builds src n)).length
      = ((aggregate_last_n_builds src n).filter
          (fun p => decide (p.1.1 = maxDateKey (aggregate_last_n_builds src n)))).length
    ∧ ∀ p ∈ (aggregate_last_n_builds src n).filter
        (fun p => decide (p.1.1 = maxDateKey (aggregate_last_n_builds src n))),
        ∃ r, r ∈ buildReportRows (aggregate_last_n_builds src n)
          ∧ r.date = p.1.1
          ∧ r.environment = p.1.2
          ∧ (r.environment = "prod".toList ∨ r.environment = "preprod".toList
              ∨ r.environment = "ran_manually".toList)
          ∧ ∃ l : List Int, List.Sorted (· ≤ ·) l ∧ l.Perm p.2.builds
              ∧ r.builds = List.intercalate ", ".toList (l.map intToStr) := by
  constructor
  · simp only [buildReportRows]
    rw [List.length_map]
  · intro p hp
    refine ⟨makeRow (maxDateKey (aggregate_last_n_builds src n)) p.1.2 p.2,
      ?_, ?_, rfl, ?_, ?_⟩
    · simp only [buildReportRows]
      exact List.mem_map_of_mem _ hp
    · exact (of_decide_eq_true (List.mem_filter.mp hp).2).symm
    · exact agg_mem_env_ok src n p (List.mem_filter.mp hp).1
    · exact ⟨List.insertionSort (· ≤ ·) p.2.builds,
        List.sorted_insertionSort _ _, List.perm_insertionSort _ _, rfl⟩

/-- Witness for the amended C2 at a concrete source. -/
theorem report_rows_latest_date_witness :
    aggregate_last_n_builds srcW1 1 ≠ []
    ∧ (buildReportRows (aggregate_last_n_builds srcW1 1)).length
        = ((aggregate_last_n_builds srcW1 1).filter
            (fun p => decide (p.1.1 = maxDateKey (aggregate_last_n_builds srcW1 1)))).length := by
  refine ⟨by decide, ?_⟩
  exact (report_rows_latest_date srcW1 1 (by decide)).1
